import Mathlib

/-!
Verification development for the code-challenge repository.

Covered code:
* `src/problem4/script.ts` — the three `sum_to_n` implementations.
* `src/problem6/README.md` — the real-time scoreboard module: the `updateScore`
  and `updateLeaderboardCache` pseudocode (modelled in namespace `Scoreboard`),
  and the ranking-engine design of the specification (Score Ledger, Ranking
  Index, Change Detector), which the README describes but does not implement
  (modelled in namespace `Ranking`).

Machine integers of the source are modelled as `Int`/`Nat`; timestamps as `Nat`
ticks; user ids and action ids as `Nat`.
-/

namespace Problem4

/-- `sum_to_n_a` (script.ts lines 2-8): iterative loop `for (i = 1; i <= n; i++) sum += i`.
`sumUpTo k` is the value of `sum` after the loop has run up to `i = k`; for a
negative or zero argument the loop body never runs. -/
def sumUpTo : Nat → Int
  | 0 => 0
  | k + 1 => sumUpTo k + (k + 1 : Int)

def sum_to_n_a (n : Int) : Int := sumUpTo n.toNat

/-- `sum_to_n_b` (script.ts lines 11-13): `(n * (n + 1)) / 2`.  The product of two
consecutive integers is even and non-negative, so JavaScript's exact float
division agrees with integer division here. -/
def sum_to_n_b (n : Int) : Int := n * (n + 1) / 2

/-- Recursion of `calculateSum` inside `sum_to_n_c` (script.ts lines 19-31):
`num <= 0 → 0`, `num = 1 → 1`, else `num + calculateSum (num - 1)`.  The memo
table only caches results of this pure recursion, so it is semantically inert
and is not modelled. -/
def calculateSum : Nat → Int
  | 0 => 0
  | 1 => 1
  | (k + 2) => (k + 2 : Int) + calculateSum (k + 1)

/-- `sum_to_n_c` (script.ts lines 16-34): `calculateSum(n)`, where every
non-positive argument returns 0. -/
def sum_to_n_c (n : Int) : Int := calculateSum n.toNat

end Problem4

namespace Scoreboard

/-- One row of the `score_updates` audit table (README schema lines 52-61;
insert at README lines 446-453). -/
structure AuditRow where
  userId : Nat
  actionId : Nat
  points : Int
deriving DecidableEq

/-- The PostgreSQL side: `score_updates` rows and the `scores` table
(`user_id → score`, README schema lines 41-47). -/
structure DBState where
  scoreUpdates : List AuditRow
  scores : List (Nat × Int)
deriving DecidableEq

/-- Whole-system state of the README pseudocode: the database, the Redis
`action:processed:{action_id}` keys (README line 73), the Redis
`scoreboard:top10` sorted set held in descending order (README line 70), and a
counter of `publishLeaderboardUpdate` calls standing for the PubSub broadcasts. -/
structure SystemState where
  db : DBState
  processedKeys : List Nat
  board : List (Nat × Int)
  published : Nat
deriving DecidableEq

/-- Score lookup in the `scores` table; the schema default for the `score`
column is 0 (README line 44). -/
def lookupScore (scores : List (Nat × Int)) (u : Nat) : Int :=
  match scores.find? (fun r => r.1 == u) with
  | some r => r.2
  | none => 0

/-- `isActionProcessed` (README line 434): the idempotency check consults the
Redis key set and the database audit table ("Check action_id in Redis/DB",
README lines 244-247; "Store processed action_ids in Redis (24-hour TTL) and
database", README line 319). -/
def isActionProcessed (st : SystemState) (a : Nat) : Bool :=
  st.processedKeys.any (fun x => x == a) || st.db.scoreUpdates.any (fun r => r.actionId == a)

/-- First half of the database transaction (README lines 445-453): insert the
audit row into `score_updates`. -/
def txInsertAudit (st : SystemState) (u a : Nat) (p : Int) : SystemState :=
  { st with db := { st.db with scoreUpdates := st.db.scoreUpdates ++ [⟨u, a, p⟩] } }

/-- The `scores` row update `score: { increment: points }` (README lines 455-462):
increment the existing row, or create the row at the schema default 0 plus the
delta if the user had no row yet. -/
def bumpScore (scores : List (Nat × Int)) (u : Nat) (p : Int) : List (Nat × Int) :=
  if scores.any (fun r => r.1 == u) then
    scores.map (fun r => if r.1 == u then (r.1, r.2 + p) else r)
  else
    scores ++ [(u, p)]

/-- Second half of the database transaction (README lines 455-462): apply the
score increment. -/
def txUpdateScore (st : SystemState) (u : Nat) (p : Int) : SystemState :=
  { st with db := { st.db with scores := bumpScore st.db.scores u p } }

/-- `markActionAsProcessed` (README line 468): record the id under
`action:processed:{action_id}` in Redis. -/
def markActionAsProcessed (st : SystemState) (a : Nat) : SystemState :=
  { st with processedKeys := a :: st.processedKeys }

/-- `publishLeaderboardUpdate` (README line 475): one PubSub broadcast. -/
def publishLeaderboardUpdate (st : SystemState) : SystemState :=
  { st with published := st.published + 1 }

/-- Descending ZSET order used by `scoreboard:top10`: higher score first,
score ties by reverse member order (Redis ZREVRANGE tie rule). -/
def zAbove (x y : Nat × Int) : Bool :=
  decide (y.2 < x.2) || (x.2 == y.2 && decide (y.1 < x.1))

/-- Insert a member into the descending sorted-set representation. -/
def zInsert (x : Nat × Int) : List (Nat × Int) → List (Nat × Int)
  | [] => [x]
  | y :: ys => if zAbove x y then x :: y :: ys else y :: zInsert x ys

/-- `redis.zadd key score member` (README line 487): set the member's score,
keeping the set ordered. -/
def zadd (board : List (Nat × Int)) (u : Nat) (s : Int) : List (Nat × Int) :=
  zInsert (u, s) (board.filter (fun r => r.1 != u))

/-- `redis.zrevrank key member` (README line 493): 0-based rank from the top, or
`none` when the member is absent. -/
def zrevrank (board : List (Nat × Int)) (u : Nat) : Option Nat :=
  board.findIdx? (fun r => r.1 == u)

/-- `updateLeaderboardCache` (README lines 485-500): `zadd` the new score, trim
to the 10 highest members (`zremrangebyrank 0 -11`), then report
`rank !== null && rank < 10` for the updated user.  Returns the new board and
that flag (the pseudocode calls it `top10Changed`). -/
def updateLeaderboardCache (board : List (Nat × Int)) (u : Nat) (newScore : Int) :
    List (Nat × Int) × Bool :=
  let b1 := zadd board u newScore
  let b2 := b1.take 10
  (b2, match zrevrank b2 u with
       | some r => decide (r < 10)
       | none => false)

/-- Outcome of `updateScore`: the success payload or one of the thrown errors
`ACTION_ALREADY_PROCESSED` / `INVALID_POINTS` (README lines 435, 440). -/
inductive UpdateResult where
  | ok (newScore : Int)
  | alreadyProcessed
  | invalidPoints
deriving DecidableEq

/-- `updateScore` (README lines 432-479), parameterised by the external
action-type points validator `isValidPointsForAction`.  Steps in source order:
idempotency check, points validation, database transaction (audit insert then
score increment), `markActionAsProcessed`, `updateLeaderboardCache`, and a
broadcast when the cache update reports `top10Changed`.  On a thrown error the
state is returned unchanged. -/
def updateScore (valid : Int → Bool) (st : SystemState) (u a : Nat) (p : Int) :
    SystemState × UpdateResult :=
  if isActionProcessed st a then (st, .alreadyProcessed)
  else if !valid p then (st, .invalidPoints)
  else
    let s1 := txInsertAudit st u a p
    let s2 := txUpdateScore s1 u p
    let s3 := markActionAsProcessed s2 a
    let newScore := lookupScore s2.db.scores u
    let bc := updateLeaderboardCache s3.board u newScore
    let s4 : SystemState := { s3 with board := bc.1 }
    let s5 := if bc.2 then publishLeaderboardUpdate s4 else s4
    (s5, .ok newScore)

/-- The primitive operations of `updateScore`, used to index its intermediate
states. -/
inductive Step where
  | idempotencyCheck
  | auditInsert
  | scoreMutation
  | markProcessed
  | cacheUpdate
  | broadcastCheck
deriving DecidableEq

/-- Step-indexed execution of `updateScore` (README lines 432-479): the list of
intermediate states in source order, each paired with the set of primitive
operations performed so far.  Rejected calls stop after the failing check with
the state untouched. -/
def updateScoreTrace (valid : Int → Bool) (st : SystemState) (u a : Nat) (p : Int) :
    List (List Step × SystemState) :=
  if isActionProcessed st a then [([Step.idempotencyCheck], st)]
  else if !valid p then [([Step.idempotencyCheck], st)]
  else
    let s1 := txInsertAudit st u a p
    let s2 := txUpdateScore s1 u p
    let s3 := markActionAsProcessed s2 a
    let newScore := lookupScore s2.db.scores u
    let bc := updateLeaderboardCache s3.board u newScore
    let s4 : SystemState := { s3 with board := bc.1 }
    let s5 := if bc.2 then publishLeaderboardUpdate s4 else s4
    [([Step.idempotencyCheck], st),
     ([Step.idempotencyCheck, Step.auditInsert], s1),
     ([Step.idempotencyCheck, Step.auditInsert, Step.scoreMutation], s2),
     ([Step.idempotencyCheck, Step.auditInsert, Step.scoreMutation, Step.markProcessed], s3),
     ([Step.idempotencyCheck, Step.auditInsert, Step.scoreMutation, Step.markProcessed,
       Step.cacheUpdate], s4),
     ([Step.idempotencyCheck, Step.auditInsert, Step.scoreMutation, Step.markProcessed,
       Step.cacheUpdate, Step.broadcastCheck], s5)]

/-- Run a list of `(user_id, action_id, points)` submissions through
`updateScore`, threading the state. -/
def runActions (valid : Int → Bool) (st : SystemState) (acts : List (Nat × Nat × Int)) :
    SystemState :=
  acts.foldl (fun s act => (updateScore valid s act.1 act.2.1 act.2.2).1) st

/-- Concrete state for the no-change broadcast analysis: user 1 alone on the
board with score 100, matching `scores` row, nothing processed yet. -/
def noChangeState : SystemState :=
  { db := { scoreUpdates := [], scores := [(1, 100)] }
  , processedKeys := []
  , board := [(1, 100)]
  , published := 0 }

end Scoreboard

namespace Ranking

/-- Modelled from the spec: `ScoreEntry` (§3 Data Model) — per-user cumulative
score with the timestamp of its last update.  The README describes but does not
implement the ranking engine, so this part of the model follows the
specification's words. -/
structure ScoreEntry where
  user_id : Nat
  total_score : Int
  last_updated : Nat
deriving DecidableEq

/-- Modelled from the spec: `RankSlot` (§3) — one row of the derived top-N view. -/
structure RankSlot where
  rank : Nat
  user_id : Nat
  score : Int
deriving DecidableEq

/-- Modelled from the spec: rank-or-unranked (§3, Glossary) — a rank in `1..N`
or the `Unranked` sentinel, which is not a number and not an error. -/
inductive Rank where
  | ranked (k : Nat)
  | unranked
deriving DecidableEq

/-- Modelled from the spec: the Ranking Index key `(score desc, last_updated
asc, user_id)` (§4.3).  `rankAbove a b` holds when `a` is strictly ranked above
`b`. -/
def rankAbove (a b : ScoreEntry) : Bool :=
  decide (b.total_score < a.total_score) ||
    (a.total_score == b.total_score &&
      (decide (a.last_updated < b.last_updated) ||
        (a.last_updated == b.last_updated && decide (a.user_id < b.user_id))))

/-- The non-strict companion of `rankAbove`: `a` may be placed before `b`. -/
def rankLe (a b : ScoreEntry) : Prop := rankAbove b a = false

instance rankLe.decRel : DecidableRel rankLe :=
  fun a b => inferInstanceAs (Decidable (rankAbove b a = false))

instance rankLe.isTotal : IsTotal ScoreEntry rankLe where
  total a b := by
    by_contra hc
    push_neg at hc
    obtain ⟨h1, h2⟩ := hc
    simp only [rankLe, Bool.not_eq_false] at h1 h2
    revert h1 h2
    simp only [rankAbove, Bool.or_eq_true, Bool.and_eq_true, decide_eq_true_eq, beq_iff_eq]
    omega

instance rankLe.isTrans : IsTrans ScoreEntry rankLe where
  trans a b c hab hbc := by
    simp only [rankLe, Bool.eq_false_iff, ne_eq] at hab hbc ⊢
    intro hca
    revert hab hbc
    revert hca
    simp only [rankAbove, Bool.or_eq_true, Bool.and_eq_true, decide_eq_true_eq, beq_iff_eq,
      not_imp_not]
    omega

/-- Modelled from the spec: full-fidelity ordering of the Ranking Index (§4.3)
— sort by score descending, ties by earliest `last_updated`, then `user_id`. -/
def sortRanked (l : List ScoreEntry) : List ScoreEntry := l.insertionSort rankLe

/-- Modelled from the spec: the top-N entries of a ledger (§3, §4.3). -/
def topEntries (n : Nat) (l : List ScoreEntry) : List ScoreEntry := (sortRanked l).take n

/-- Number the entries of an ordered list with consecutive ranks starting at
`r`, producing `RankSlot`s. -/
def toSlots : Nat → List ScoreEntry → List RankSlot
  | _, [] => []
  | r, e :: es => { rank := r, user_id := e.user_id, score := e.total_score } :: toSlots (r + 1) es

/-- Modelled from the spec: `getTopN()` (§6 Query boundary) — the ordered
sequence of `RankSlot`s over the top-N entries, ranks starting at 1. -/
def getTopN (n : Nat) (l : List ScoreEntry) : List RankSlot := toSlots 1 (topEntries n l)

/-- Modelled from the spec: `getRank(user_id)` / `rankOf` (§4.3, §6) — the
user's rank in the top-N view, or the `Unranked` sentinel when outside it. -/
def getRank (n : Nat) (l : List ScoreEntry) (u : Nat) : Rank :=
  match (getTopN n l).find? (fun s => s.user_id == u) with
  | some s => .ranked s.rank
  | none => .unranked

/-- Total score currently recorded for a user; 0 when the user has no entry. -/
def scoreOf (l : List ScoreEntry) (u : Nat) : Int :=
  match l.find? (fun e => e.user_id == u) with
  | some e => e.total_score
  | none => 0

/-- Modelled from the spec: Ledger configuration — whether negative resulting
totals are explicitly permitted (§4.2). -/
structure LedgerConfig where
  allowNegative : Bool

/-- Result of `applyDelta`: the post-mutation entry, or the `InvalidDelta`
rejection (§4.2, §7). -/
inductive DeltaResult where
  | applied (entry : ScoreEntry)
  | invalidDelta
deriving DecidableEq

/-- Modelled from the spec: `applyDelta(user_id, points_delta)` (§4.2) — rejects
with `InvalidDelta` if the resulting total would go negative (unless negative
totals are permitted by configuration), mutating nothing; otherwise replaces
the user's entry with the new total and timestamp. -/
def applyDelta (cfg : LedgerConfig) (l : List ScoreEntry) (u : Nat) (p : Int) (now : Nat) :
    List ScoreEntry × DeltaResult :=
  let newTotal := scoreOf l u + p
  if !cfg.allowNegative && decide (newTotal < 0) then
    (l, .invalidDelta)
  else
    let e : ScoreEntry := { user_id := u, total_score := newTotal, last_updated := now }
    (l.filter (fun x => x.user_id != u) ++ [e], .applied e)

/-- Modelled from the spec: `Diff` (§3) — users who entered or left the top-N
and the rank moves, with the post-update snapshot. -/
structure Diff where
  entered : List Nat
  leftTop : List Nat
  moved : List (Nat × Nat × Nat)
  snapshot : List RankSlot
deriving DecidableEq

/-- Modelled from the spec: the Change Detector (§4.4) — compare the top-N view
before and after a mutation; `moved` records `(user, old_rank, new_rank)` for
users ranked in both views whose rank differs. -/
def computeDiff (before after : List RankSlot) : Diff :=
  { entered := (after.filter
      (fun s => !(before.any (fun t => t.user_id == s.user_id)))).map (fun s => s.user_id)
  , leftTop := (before.filter
      (fun s => !(after.any (fun t => t.user_id == s.user_id)))).map (fun s => s.user_id)
  , moved := after.filterMap (fun s =>
      match before.find? (fun t => t.user_id == s.user_id) with
      | some t => if t.rank == s.rank then none else some (s.user_id, t.rank, s.rank)
      | none => none)
  , snapshot := after }

/-- A `Diff` with empty `entered`, `left` and `moved` means "no externally
observable change" (§4.4). -/
def diffIsEmpty (d : Diff) : Bool :=
  d.entered.isEmpty && d.leftTop.isEmpty && d.moved.isEmpty

/-- Modelled from the spec: `Action` (§3) — immutable verified point delta. -/
structure Action where
  action_id : Nat
  user_id : Nat
  points_delta : Int
deriving DecidableEq

/-- Modelled from the spec: state of the whole ranking subsystem — the
Idempotency Guard's id set (§4.1), the Score Ledger (§4.2), a logical clock
supplying `last_updated` timestamps, and the list of broadcast diffs (§4.5,
newest first). -/
structure SysState where
  processed : List Nat
  ledger : List ScoreEntry
  clock : Nat
  broadcasts : List Diff
deriving DecidableEq

/-- Modelled from the spec: outcome at the ingestion boundary (§6) — the new
score, rank-or-unranked and `rank_changed` on success, or a rejection reason. -/
inductive SubmitResult where
  | admitted (new_score : Int) (rank : Rank) (rank_changed : Bool)
  | alreadyProcessed
  | invalidDelta
deriving DecidableEq

/-- Modelled from the spec: the control flow of §2 — Idempotency Guard admits or
rejects (recording the id on admission, §4.1), the Score Ledger applies the
delta (§4.2), the Change Detector compares the top-N views (§4.4), and a
non-empty diff is broadcast (§4.5). -/
def submitAction (cfg : LedgerConfig) (n : Nat) (st : SysState) (act : Action) :
    SysState × SubmitResult :=
  if st.processed.contains act.action_id then (st, .alreadyProcessed)
  else
    match applyDelta cfg st.ledger act.user_id act.points_delta st.clock with
    | (_, .invalidDelta) =>
        ({ st with processed := act.action_id :: st.processed }, .invalidDelta)
    | (ledger2, .applied e) =>
        let d := computeDiff (getTopN n st.ledger) (getTopN n ledger2)
        ({ processed := act.action_id :: st.processed
         , ledger := ledger2
         , clock := st.clock + 1
         , broadcasts := if diffIsEmpty d then st.broadcasts else d :: st.broadcasts },
         .admitted e.total_score (getRank n ledger2 act.user_id)
           (decide (getRank n st.ledger act.user_id ≠ getRank n ledger2 act.user_id)))

/-- Fold a list of `(user_id, points_delta, timestamp)` deltas through the
Ledger, keeping the (possibly unchanged) ledger of each step. -/
def applyDeltas (cfg : LedgerConfig) (l : List ScoreEntry) (ds : List (Nat × Int × Nat)) :
    List ScoreEntry :=
  ds.foldl (fun acc d => (applyDelta cfg acc d.1 d.2.1 d.2.2).1) l

/-- The per-user score recurrence of `applyDelta`: accept the delta unless the
resulting total would go negative while negative totals are not permitted. -/
def scoreSteps (cfg : LedgerConfig) (s : Int) (ds : List (Nat × Int × Nat)) : Int :=
  ds.foldl
    (fun acc d => if !cfg.allowNegative && decide (acc + d.2.1 < 0) then acc else acc + d.2.1) s

/-- Ledger of the §8 eviction scenario: ten ranked users (ids 1..10, scores
1000, 900, …, 100, timestamps 1..10) and the unranked user 11 (called K in the
scenario) with score 1. -/
def evictionLedger : List ScoreEntry :=
  [⟨1, 1000, 1⟩, ⟨2, 900, 2⟩, ⟨3, 800, 3⟩, ⟨4, 700, 4⟩, ⟨5, 600, 5⟩,
   ⟨6, 500, 6⟩, ⟨7, 400, 7⟩, ⟨8, 300, 8⟩, ⟨9, 200, 9⟩, ⟨10, 100, 10⟩,
   ⟨11, 1, 11⟩]

/-- Initial system state of the §8 eviction scenario. -/
def evictionState : SysState :=
  { processed := [], ledger := evictionLedger, clock := 12, broadcasts := [] }

/-- The §8 eviction scenario: user 11 submits a fresh action worth +1000
points, reaching 1001, the highest score on the board (N = 10, negative totals
not permitted). -/
def evictionOutcome : SysState × SubmitResult :=
  submitAction ⟨false⟩ 10 evictionState ⟨500, 11, 1000⟩

/-- The diff the eviction scenario broadcasts: top-10 before the update against
top-10 after it. -/
def evictionDiff : Diff :=
  computeDiff (getTopN 10 evictionState.ledger) (getTopN 10 evictionOutcome.1.ledger)

end Ranking

namespace Problem4

theorem two_mul_sumUpTo (m : Nat) : 2 * sumUpTo m = (m : Int) * (m + 1) := by
  induction m with
  | zero => simp [sumUpTo]
  | succ k ih =>
    have hstep : sumUpTo (k + 1) = sumUpTo k + ((k : Int) + 1) := by
      simp [sumUpTo]
    rw [hstep, Nat.cast_succ, mul_add, ih]
    ring

/-- C10: for every non-negative integer `n`, the three implementations agree
and return `n * (n + 1) / 2`; on the negative input `-2` the closed formula
`sum_to_n_b` returns 1 while `sum_to_n_a` and `sum_to_n_c` both return 0. -/
theorem sum_to_n_implementations_agree :
    (∀ n : Int, 0 ≤ n →
      sum_to_n_a n = n * (n + 1) / 2 ∧ sum_to_n_b n = n * (n + 1) / 2 ∧
        sum_to_n_c n = n * (n + 1) / 2) ∧
    (sum_to_n_a (-2) = 0 ∧ sum_to_n_c (-2) = 0 ∧ sum_to_n_b (-2) ≠ sum_to_n_a (-2) ∧
      sum_to_n_b (-2) ≠ sum_to_n_c (-2)) := by
  constructor
  · intro n hn
    have hcalc : ∀ m : Nat, calculateSum m = sumUpTo m := by
      intro m
      induction m with
      | zero => rfl
      | succ k ih =>
        cases k with
        | zero => rfl
        | succ j =>
          show calculateSum (j + 2) = sumUpTo (j + 2)
          have h1 : calculateSum (j + 2) = ((j : Int) + 2) + calculateSum (j + 1) := rfl
          have h2 : sumUpTo (j + 2) = sumUpTo (j + 1) + ((j : Int) + 1 + 1) := rfl
          rw [h1, h2, ih]
          ring
    have ha : 2 * sum_to_n_a n = n * (n + 1) := by
      rw [sum_to_n_a, two_mul_sumUpTo, Int.toNat_of_nonneg hn]
    have hdiv : n * (n + 1) / 2 = sum_to_n_a n := by
      rw [← ha]
      exact Int.mul_ediv_cancel_left _ (by norm_num)
    refine ⟨hdiv.symm, rfl, ?_⟩
    rw [sum_to_n_c, hcalc, ← sum_to_n_a, hdiv]
  · exact ⟨rfl, rfl, by decide, by decide⟩

/-- Witness for C10: the universally quantified part evaluated at `n = 3`,
where all three implementations return 6. -/
theorem sum_to_n_implementations_agree_witness :
    sum_to_n_a 3 = 3 * (3 + 1) / 2 ∧ sum_to_n_b 3 = 3 * (3 + 1) / 2 ∧
      sum_to_n_c 3 = 3 * (3 + 1) / 2 :=
  sum_to_n_implementations_agree.1 3 (by norm_num)

end Problem4

namespace Scoreboard

/-- C3 (code bug): on `noChangeState`, the admitted update (user 1, fresh
action 5, 0 points) leaves the user's score, the board, and every member's
`zrevrank` exactly as before, yet `updateLeaderboardCache` reports
`top10Changed = true` (it returns `rank !== null && rank < 10`, README line
498) and `updateScore` broadcasts (README lines 474-476) — contradicting the
README's own rule to publish only when the top 10 changed (README lines 304,
348, 359). -/
theorem broadcast_despite_no_change :
    (updateScore (fun _ => true) noChangeState 1 5 0).2 = .ok 100 ∧
    ((updateScore (fun _ => true) noChangeState 1 5 0).1).board = noChangeState.board ∧
    lookupScore ((updateScore (fun _ => true) noChangeState 1 5 0).1).db.scores 1 =
      lookupScore noChangeState.db.scores 1 ∧
    (updateLeaderboardCache noChangeState.board 1 100).2 = true ∧
    ((updateScore (fun _ => true) noChangeState 1 5 0).1).published =
      noChangeState.published + 1 := by
  decide

end Scoreboard

namespace Ranking

/-- Counterexample to C8 as stated: in the §8 eviction scenario every listed
fact holds except the size of the `moved` map — after user 11 enters at rank 1
and the prior rank-10 user is evicted, NINE users (the previous ranks 1..9)
remain in both views and each moves down by one rank, not eight. -/
theorem eviction_moved_count_not_eight :
    evictionDiff.entered = [11] ∧ evictionDiff.leftTop = [10] ∧
    evictionOutcome.2 = .admitted 1001 (.ranked 1) true ∧
    getRank 10 evictionOutcome.1.ledger 10 = .unranked ∧
    evictionDiff.moved.length = 9 ∧ ¬ evictionDiff.moved.length = 8 := by
  decide

/-- C8 amended: in the §8 eviction scenario (ranking full at 10 users, the
unranked user 11 with score 1 gains +1000 reaching 1001), user 11 enters at
rank 1, the prior rank-10 user disappears from `getTopN()` while `getRank`
returns `Unranked` for them, the diff is broadcast with `entered = {11}`,
`left = {10}`, and the remaining NINE users each move down one rank. -/
theorem eviction_scenario :
    evictionOutcome.2 = .admitted 1001 (.ranked 1) true ∧
    (getTopN 10 evictionOutcome.1.ledger).map RankSlot.user_id =
      [11, 1, 2, 3, 4, 5, 6, 7, 8, 9] ∧
    getRank 10 evictionOutcome.1.ledger 10 = .unranked ∧
    evictionOutcome.1.broadcasts = [evictionDiff] ∧
    evictionDiff.entered = [11] ∧ evictionDiff.leftTop = [10] ∧
    evictionDiff.moved =
      [(1, 1, 2), (2, 2, 3), (3, 3, 4), (4, 4, 5), (5, 5, 6),
       (6, 6, 7), (7, 7, 8), (8, 8, 9), (9, 9, 10)] := by
  decide

end Ranking

namespace Scoreboard

theorem isActionProcessed_of_ok (valid : Int → Bool) (st : SystemState) (u a : Nat) (p : Int)
    (st1 : SystemState) (n1 : Int) (hok : updateScore valid st u a p = (st1, .ok n1)) :
    isActionProcessed st1 a = true := by
  rw [updateScore] at hok
  by_cases h1 : isActionProcessed st a = true
  · rw [if_pos h1] at hok
    simp at hok
  · rw [if_neg h1] at hok
    by_cases h2 : valid p = true
    · rw [if_neg (by simp [h2])] at hok
      simp only [Prod.mk.injEq] at hok
      obtain ⟨hst, -⟩ := hok
      subst hst
      split
      · simp [isActionProcessed, publishLeaderboardUpdate, markActionAsProcessed, txUpdateScore,
          txInsertAudit]
      · simp [isActionProcessed, markActionAsProcessed, txUpdateScore, txInsertAudit]
    · rw [Bool.not_eq_true] at h2
      rw [if_pos (by simp [h2])] at hok
      simp at hok

theorem isActionProcessed_persists (valid : Int → Bool) (st : SystemState) (u a2 : Nat) (p : Int)
    (a : Nat) (h : isActionProcessed st a = true) :
    isActionProcessed (updateScore valid st u a2 p).1 a = true := by
  rw [updateScore]
  by_cases h1 : isActionProcessed st a2 = true
  · rw [if_pos h1]
    exact h
  · rw [if_neg h1]
    by_cases h2 : valid p = true
    · rw [if_neg (by simp [h2])]
      simp only [isActionProcessed, Bool.or_eq_true] at h
      simp only [isActionProcessed]
      rcases h with hk | ha
      · split <;>
          simp [publishLeaderboardUpdate, markActionAsProcessed, txUpdateScore, txInsertAudit,
            List.any_cons, List.any_append, hk]
      · split <;>
          simp [publishLeaderboardUpdate, markActionAsProcessed, txUpdateScore, txInsertAudit,
            List.any_cons, List.any_append, ha]
    · rw [Bool.not_eq_true] at h2
      rw [if_pos (by simp [h2])]
      exact h

theorem isActionProcessed_runActions (valid : Int → Bool) (st : SystemState)
    (acts : List (Nat × Nat × Int)) (a : Nat) (h : isActionProcessed st a = true) :
    isActionProcessed (runActions valid st acts) a = true := by
  induction acts generalizing st with
  | nil => exact h
  | cons act rest ih =>
    simp only [runActions, List.foldl_cons]
    exact ih _ (isActionProcessed_persists valid st act.1 act.2.1 act.2.2 a h)

/-- C1: once an action id has been admitted by `updateScore` (README lines
432-441), resubmitting that id after any further sequence of submissions
throws `ACTION_ALREADY_PROCESSED` and returns the state completely unchanged —
no score mutation, no board change, and no broadcast (hence no diff) happen on
a replay. -/
theorem updateScore_replay_rejected (valid : Int → Bool) (st : SystemState) (u a : Nat)
    (p : Int) (st1 : SystemState) (n1 : Int)
    (hok : updateScore valid st u a p = (st1, .ok n1))
    (acts : List (Nat × Nat × Int)) (u2 : Nat) (p2 : Int) :
    updateScore valid (runActions valid st1 acts) u2 a p2 =
      (runActions valid st1 acts, .alreadyProcessed) := by
  have hp : isActionProcessed (runActions valid st1 acts) a = true :=
    isActionProcessed_runActions valid st1 acts a
      (isActionProcessed_of_ok valid st u a p st1 n1 hok)
  rw [updateScore, if_pos hp]

/-- Witness for C1: action 7 is admitted for user 1 from the empty state, one
unrelated action follows, then the replay of action 7 is rejected with the
state unchanged. -/
theorem updateScore_replay_rejected_witness :
    updateScore (fun _ => true)
      (runActions (fun _ => true)
        (⟨⟨[⟨1, 7, 5⟩], [(1, 5)]⟩, [7], [(1, 5)], 1⟩ : SystemState) [(2, 8, 3)]) 3 7 1 =
      (runActions (fun _ => true)
        (⟨⟨[⟨1, 7, 5⟩], [(1, 5)]⟩, [7], [(1, 5)], 1⟩ : SystemState) [(2, 8, 3)],
        .alreadyProcessed) :=
  updateScore_replay_rejected (fun _ => true) (⟨⟨[], []⟩, [], [], 0⟩ : SystemState) 1 7 5
    (⟨⟨[⟨1, 7, 5⟩], [(1, 5)]⟩, [7], [(1, 5)], 1⟩ : SystemState) 5 (by decide)
    [(2, 8, 3)] 3 1

/-- C2: along every execution of `updateScore` (README lines 432-479), at every
intermediate state at which the score mutation has been applied, the action id
is already recorded as processed — the audit insert (the database half of the
processed-id record consulted by `isActionProcessed`, README lines 244-247 and
319, enforced unique by the `unique_action` constraint, README line 60)
precedes the score mutation inside the transaction, and the Redis mark follows
before the call returns. -/
theorem mutation_implies_recorded (valid : Int → Bool) (st : SystemState) (u a : Nat) (p : Int)
    (done : List Step) (s : SystemState)
    (hmem : (done, s) ∈ updateScoreTrace valid st u a p)
    (hmut : Step.scoreMutation ∈ done) :
    isActionProcessed s a = true := by
  rw [updateScoreTrace] at hmem
  by_cases h1 : isActionProcessed st a = true
  · rw [if_pos h1] at hmem
    simp only [List.mem_singleton, Prod.mk.injEq] at hmem
    obtain ⟨hd, -⟩ := hmem
    subst hd
    exact absurd hmut (by decide)
  · rw [if_neg h1] at hmem
    by_cases h2 : valid p = true
    · rw [if_neg (by simp [h2])] at hmem
      simp only [List.mem_cons, List.mem_singleton, List.not_mem_nil, or_false,
        Prod.mk.injEq] at hmem
      rcases hmem with ⟨hd, hs⟩ | ⟨hd, hs⟩ | ⟨hd, hs⟩ | ⟨hd, hs⟩ | ⟨hd, hs⟩ | ⟨hd, hs⟩
      · subst hd
        exact absurd hmut (by decide)
      · subst hd
        exact absurd hmut (by decide)
      · subst hs
        simp [isActionProcessed, txUpdateScore, txInsertAudit, List.any_append]
      · subst hs
        simp [isActionProcessed, markActionAsProcessed, txUpdateScore, txInsertAudit,
          List.any_append]
      · subst hs
        simp [isActionProcessed, markActionAsProcessed, txUpdateScore, txInsertAudit,
          List.any_append]
      · subst hs
        split <;>
          simp [isActionProcessed, publishLeaderboardUpdate, markActionAsProcessed,
            txUpdateScore, txInsertAudit, List.any_append]
    · rw [Bool.not_eq_true] at h2
      rw [if_pos (by simp [h2])] at hmem
      simp only [List.mem_singleton, Prod.mk.injEq] at hmem
      obtain ⟨hd, -⟩ := hmem
      subst hd
      exact absurd hmut (by decide)

/-- Witness for C2: in the admitted run of action 7 for user 1 from the empty
state, the intermediate state reached right after the score mutation already
satisfies `isActionProcessed` for action 7. -/
theorem mutation_implies_recorded_witness :
    isActionProcessed (⟨⟨[⟨1, 7, 5⟩], [(1, 5)]⟩, [], [], 0⟩ : SystemState) 7 = true :=
  mutation_implies_recorded (fun _ => true) (⟨⟨[], []⟩, [], [], 0⟩ : SystemState) 1 7 5
    [Step.idempotencyCheck, Step.auditInsert, Step.scoreMutation]
    (⟨⟨[⟨1, 7, 5⟩], [(1, 5)]⟩, [], [], 0⟩ : SystemState) (by decide) (by decide)

end Scoreboard

namespace Ranking

theorem applyDelta_preserves_nonneg (cfg : LedgerConfig) (hcfg : cfg.allowNegative = false)
    (l : List ScoreEntry) (u : Nat) (p : Int) (now : Nat)
    (hl : ∀ e ∈ l, 0 ≤ e.total_score) :
    ∀ e ∈ (applyDelta cfg l u p now).1, 0 ≤ e.total_score := by
  intro e he
  by_cases hneg : scoreOf l u + p < 0
  · simp only [applyDelta, hcfg, Bool.not_false, Bool.true_and, decide_eq_true_eq,
      if_pos hneg] at he
    exact hl e he
  · simp only [applyDelta, hcfg, Bool.not_false, Bool.true_and, decide_eq_true_eq,
      if_neg hneg, List.mem_append, List.mem_filter, List.mem_singleton] at he
    rcases he with ⟨hmem, -⟩ | rfl
    · exact hl e hmem
    · simpa using le_of_not_lt hneg

theorem submitAction_preserves_nonneg (cfg : LedgerConfig) (hcfg : cfg.allowNegative = false)
    (n : Nat) (st : SysState) (act : Action) (hl : ∀ e ∈ st.ledger, 0 ≤ e.total_score) :
    ∀ e ∈ ((submitAction cfg n st act).1).ledger, 0 ≤ e.total_score := by
  intro e he
  have key := applyDelta_preserves_nonneg cfg hcfg st.ledger act.user_id act.points_delta
    st.clock hl
  rw [submitAction] at he
  split at he
  · exact hl e he
  · rcases hcase : applyDelta cfg st.ledger act.user_id act.points_delta st.clock with ⟨l2, r⟩
    rw [hcase] at he key
    cases r with
    | applied e2 => exact key e he
    | invalidDelta => exact hl e he

/-- C4: with negative totals not permitted by configuration, `applyDelta`
rejects with `InvalidDelta` every delta whose application would make the
user's total negative, mutating nothing on rejection; consequently
`total_score ≥ 0` is preserved by `applyDelta` and by the whole ingestion
operation `submitAction`. -/
theorem applyDelta_rejects_negative (cfg : LedgerConfig) (l : List ScoreEntry) (u : Nat)
    (p : Int) (now : Nat) (hcfg : cfg.allowNegative = false) :
    (scoreOf l u + p < 0 → applyDelta cfg l u p now = (l, .invalidDelta)) ∧
    ((∀ e ∈ l, 0 ≤ e.total_score) → ∀ e ∈ (applyDelta cfg l u p now).1, 0 ≤ e.total_score) ∧
    (∀ (n : Nat) (st : SysState) (act : Action), (∀ e ∈ st.ledger, 0 ≤ e.total_score) →
      ∀ e ∈ ((submitAction cfg n st act).1).ledger, 0 ≤ e.total_score) := by
  refine ⟨?_, applyDelta_preserves_nonneg cfg hcfg l u p now,
    fun n st act => submitAction_preserves_nonneg cfg hcfg n st act⟩
  intro h
  simp [applyDelta, hcfg, h]

/-- Witness for C4: user 1 has total 5, a -10 delta would reach -5, so it is
rejected and nothing is mutated. -/
theorem applyDelta_rejects_negative_witness :
    applyDelta ⟨false⟩ [⟨1, 5, 0⟩] 1 (-10) 3 = ([⟨1, 5, 0⟩], .invalidDelta) :=
  (applyDelta_rejects_negative ⟨false⟩ [⟨1, 5, 0⟩] 1 (-10) 3 rfl).1 (by decide)

theorem filter_ne_find_eq (l : List ScoreEntry) (u v : Nat) (huv : u ≠ v) :
    (l.filter (fun x => x.user_id != v)).find? (fun x => x.user_id == u) =
      l.find? (fun x => x.user_id == u) := by
  induction l with
  | nil => rfl
  | cons x xs ih =>
    by_cases hxu : x.user_id = u
    · have hxv : (x.user_id != v) = true := by
        rw [hxu]
        simpa using huv
      rw [List.filter_cons, if_pos hxv, List.find?_cons_of_pos _ (by simp [hxu]),
        List.find?_cons_of_pos _ (by simp [hxu])]
    · by_cases hxv : (x.user_id != v) = true
      · rw [List.filter_cons, if_pos hxv, List.find?_cons_of_neg _ (by simp [hxu]),
          List.find?_cons_of_neg _ (by simp [hxu]), ih]
      · rw [List.filter_cons, if_neg hxv, List.find?_cons_of_neg _ (by simp [hxu]), ih]

theorem filter_self_find_none (l : List ScoreEntry) (u : Nat) :
    (l.filter (fun x => x.user_id != u)).find? (fun x => x.user_id == u) = none := by
  rw [List.find?_eq_none]
  intro x hx
  rcases List.mem_filter.mp hx with ⟨-, hne⟩
  simpa using hne

theorem scoreOf_congr (l1 l2 : List ScoreEntry) (u : Nat)
    (h : l1.find? (fun e => e.user_id == u) = l2.find? (fun e => e.user_id == u)) :
    scoreOf l1 u = scoreOf l2 u := by
  simp only [scoreOf]
  rw [h]

theorem scoreOf_applyDelta_other (cfg : LedgerConfig) (l : List ScoreEntry) (u v : Nat)
    (p : Int) (t : Nat) (huv : u ≠ v) :
    scoreOf (applyDelta cfg l v p t).1 u = scoreOf l u := by
  by_cases hc : (!cfg.allowNegative && decide (scoreOf l v + p < 0)) = true
  · simp [applyDelta, hc]
  · simp only [applyDelta, if_neg hc]
    have hone : [(⟨v, scoreOf l v + p, t⟩ : ScoreEntry)].find?
        (fun x => x.user_id == u) = none := by
      rw [List.find?_eq_none]
      intro x hx
      rcases List.mem_singleton.mp hx with rfl
      simpa using Ne.symm huv
    have hfind : ((l.filter (fun x => x.user_id != v)) ++
        [(⟨v, scoreOf l v + p, t⟩ : ScoreEntry)]).find? (fun x => x.user_id == u) =
        l.find? (fun x => x.user_id == u) := by
      rw [List.find?_append, filter_ne_find_eq l u v huv, hone]
      cases l.find? (fun x => x.user_id == u) with
      | none => rfl
      | some e => rfl
    exact scoreOf_congr _ _ _ hfind

theorem scoreOf_applyDelta_self (cfg : LedgerConfig) (l : List ScoreEntry) (u : Nat)
    (p : Int) (t : Nat) :
    scoreOf (applyDelta cfg l u p t).1 u =
      if (!cfg.allowNegative && decide (scoreOf l u + p < 0)) = true then scoreOf l u
      else scoreOf l u + p := by
  by_cases hc : (!cfg.allowNegative && decide (scoreOf l u + p < 0)) = true
  · simp [applyDelta, hc]
  · rw [if_neg hc]
    simp only [applyDelta, if_neg hc]
    have hone : [(⟨u, scoreOf l u + p, t⟩ : ScoreEntry)].find?
        (fun x => x.user_id == u) = some ⟨u, scoreOf l u + p, t⟩ :=
      List.find?_cons_of_pos _ (by simp)
    simp [scoreOf, List.find?_append, filter_self_find_none l u, hone]

theorem scoreOf_applyDeltas (cfg : LedgerConfig) (u : Nat) (ds : List (Nat × Int × Nat)) :
    ∀ l : List ScoreEntry, scoreOf (applyDeltas cfg l ds) u =
      scoreSteps cfg (scoreOf l u) (ds.filter (fun d => d.1 == u)) := by
  induction ds with
  | nil => intro l; rfl
  | cons d rest ih =>
    intro l
    obtain ⟨v, p, t⟩ := d
    have hstep : applyDeltas cfg l ((v, p, t) :: rest) =
        applyDeltas cfg (applyDelta cfg l v p t).1 rest := by
      simp [applyDeltas]
    by_cases hv : v = u
    · subst hv
      have hkeep : ((v, p, t) :: rest).filter (fun d => d.1 == v) =
          (v, p, t) :: rest.filter (fun d => d.1 == v) := by
        simp
      rw [hstep, ih, scoreOf_applyDelta_self, hkeep]
      simp only [scoreSteps, List.foldl_cons]
    · have hdrop : ((v, p, t) :: rest).filter (fun d => d.1 == u) =
          rest.filter (fun d => d.1 == u) := by
        simp [hv]
      rw [hstep, ih, hdrop, scoreOf_applyDelta_other cfg l u v p t (Ne.symm hv)]

/-- C9: the final score of user `u` after a sequence of Ledger deltas depends
only on `u`'s own subsequence of deltas — any two delta sequences agreeing on
`u`'s deltas (in order) but arbitrarily reordering, inserting or removing other
users' deltas yield the same final score for `u`. -/
theorem ledger_no_cross_user_interference (cfg : LedgerConfig) (l : List ScoreEntry) (u : Nat)
    (ds1 ds2 : List (Nat × Int × Nat))
    (h : ds1.filter (fun d => d.1 == u) = ds2.filter (fun d => d.1 == u)) :
    scoreOf (applyDeltas cfg l ds1) u = scoreOf (applyDeltas cfg l ds2) u := by
  rw [scoreOf_applyDeltas, scoreOf_applyDeltas, h]

/-- Witness for C9: user 1's deltas +5 then +7 interleaved differently with
user 2's deltas give user 1 the same final score. -/
theorem ledger_no_cross_user_interference_witness :
    scoreOf (applyDeltas ⟨false⟩ [] [(1, 5, 0), (2, 3, 1), (1, 7, 2)]) 1 =
      scoreOf (applyDeltas ⟨false⟩ [] [(2, 100, 9), (1, 5, 0), (2, 4, 1), (1, 7, 2)]) 1 :=
  ledger_no_cross_user_interference ⟨false⟩ [] 1 [(1, 5, 0), (2, 3, 1), (1, 7, 2)]
    [(2, 100, 9), (1, 5, 0), (2, 4, 1), (1, 7, 2)] (by decide)

end Ranking

namespace Ranking

theorem toSlots_length (r : Nat) (es : List ScoreEntry) : (toSlots r es).length = es.length := by
  induction es generalizing r with
  | nil => rfl
  | cons e es ih => simp [toSlots, ih]

theorem getTopN_length_le (n : Nat) (l : List ScoreEntry) : (getTopN n l).length ≤ n := by
  rw [getTopN, toSlots_length, topEntries]
  exact List.length_take_le n (sortRanked l)

theorem getRank_unranked_iff (n : Nat) (l : List ScoreEntry) (u : Nat) :
    getRank n l u = .unranked ↔ ∀ s ∈ getTopN n l, s.user_id ≠ u := by
  rw [getRank]
  cases hf : (getTopN n l).find? (fun s => s.user_id == u) with
  | none =>
    constructor
    · intro _ s hs
      have hns := List.find?_eq_none.mp hf s hs
      simpa using hns
    · intro _
      rfl
  | some s =>
    constructor
    · intro h
      exact absurd h (by simp)
    · intro hall
      have hmem := List.mem_of_find?_eq_some hf
      have hsu : s.user_id = u := by simpa using List.find?_some hf
      exact absurd hsu (hall s hmem)

/-- C5: after every `submitAction`, the top-N view holds at most `n` entries,
and `getRank` is total with the `Unranked` sentinel — it returns `Unranked`
exactly for the users outside the current top-N view (never an error, by
type). -/
theorem ranking_bounded_and_rank_total (cfg : LedgerConfig) (n : Nat) (st : SysState)
    (act : Action) (u : Nat) :
    (getTopN n ((submitAction cfg n st act).1).ledger).length ≤ n ∧
    (getRank n ((submitAction cfg n st act).1).ledger u = .unranked ↔
      ∀ s ∈ getTopN n ((submitAction cfg n st act).1).ledger, s.user_id ≠ u) :=
  ⟨getTopN_length_le n _, getRank_unranked_iff n _ u⟩

theorem sortRanked_sorted (l : List ScoreEntry) : List.Sorted rankLe (sortRanked l) :=
  List.sorted_insertionSort rankLe l

theorem topEntries_sorted (n : Nat) (l : List ScoreEntry) :
    List.Pairwise rankLe (topEntries n l) :=
  List.Pairwise.sublist (List.take_sublist n (sortRanked l)) (sortRanked_sorted l)

/-- C6: within the top-N view entries are ordered by score descending with
ties broken by earliest `last_updated` (an entry placed higher with the same
score has a `last_updated` no later than the lower one), and the ordering is
stable under re-ranking: re-sorting an already ranked ledger leaves it
unchanged. -/
theorem topN_score_order (n : Nat) (l : List ScoreEntry) (i j : Nat)
    (hi : i < (topEntries n l).length) (hj : j < (topEntries n l).length) (hij : i < j) :
    (((topEntries n l).get ⟨j, hj⟩).total_score ≤
        ((topEntries n l).get ⟨i, hi⟩).total_score ∧
      (((topEntries n l).get ⟨i, hi⟩).total_score =
          ((topEntries n l).get ⟨j, hj⟩).total_score →
        ((topEntries n l).get ⟨i, hi⟩).last_updated ≤
          ((topEntries n l).get ⟨j, hj⟩).last_updated)) ∧
    sortRanked (sortRanked l) = sortRanked l := by
  constructor
  · have hle : rankAbove ((topEntries n l).get ⟨j, hj⟩) ((topEntries n l).get ⟨i, hi⟩)
        = false :=
      List.pairwise_iff_get.mp (topEntries_sorted n l) ⟨i, hi⟩ ⟨j, hj⟩ hij
    rw [Bool.eq_false_iff] at hle
    simp only [ne_eq, rankAbove, Bool.or_eq_true, Bool.and_eq_true, decide_eq_true_eq,
      beq_iff_eq] at hle
    constructor
    · omega
    · omega
  · exact List.Sorted.insertionSort_eq (sortRanked_sorted l)

/-- Witness for C6: two users with equal score 50; user 2 reached it at time 3,
user 1 at time 5, so user 2 is ranked higher and the order statement holds at
positions 0 and 1. -/
theorem topN_score_order_witness :
    (((topEntries 2 [⟨1, 50, 5⟩, ⟨2, 50, 3⟩]).get ⟨1, by decide⟩).total_score ≤
        ((topEntries 2 [⟨1, 50, 5⟩, ⟨2, 50, 3⟩]).get ⟨0, by decide⟩).total_score ∧
      (((topEntries 2 [⟨1, 50, 5⟩, ⟨2, 50, 3⟩]).get ⟨0, by decide⟩).total_score =
          ((topEntries 2 [⟨1, 50, 5⟩, ⟨2, 50, 3⟩]).get ⟨1, by decide⟩).total_score →
        ((topEntries 2 [⟨1, 50, 5⟩, ⟨2, 50, 3⟩]).get ⟨0, by decide⟩).last_updated ≤
          ((topEntries 2 [⟨1, 50, 5⟩, ⟨2, 50, 3⟩]).get ⟨1, by decide⟩).last_updated)) ∧
    sortRanked (sortRanked [⟨1, 50, 5⟩, ⟨2, 50, 3⟩]) = sortRanked [⟨1, 50, 5⟩, ⟨2, 50, 3⟩] :=
  topN_score_order 2 [⟨1, 50, 5⟩, ⟨2, 50, 3⟩] 0 1 (by decide) (by decide) (by decide)

theorem toSlots_map_user (r : Nat) (es : List ScoreEntry) :
    (toSlots r es).map RankSlot.user_id = es.map ScoreEntry.user_id := by
  induction es generalizing r with
  | nil => rfl
  | cons e es ih => simp [toSlots, ih]

theorem toSlots_get_rank (es : List ScoreEntry) : ∀ (r i : Nat)
    (hi : i < (toSlots r es).length), ((toSlots r es).get ⟨i, hi⟩).rank = r + i := by
  induction es with
  | nil =>
    intro r i hi
    rw [toSlots_length] at hi
    exact absurd hi (by simp)
  | cons e es ih =>
    intro r i hi
    cases i with
    | zero => rfl
    | succ k =>
      have hlen : k < (toSlots (r + 1) es).length := by
        rw [toSlots_length]
        rw [toSlots_length] at hi
        simpa using Nat.lt_of_succ_lt_succ hi
      have hstep : ((toSlots r (e :: es)).get ⟨k + 1, hi⟩) =
          (toSlots (r + 1) es).get ⟨k, hlen⟩ := rfl
      rw [hstep, ih (r + 1) k hlen]
      omega

theorem map_nodup_inj_on {α β : Type} (f : α → β) (l : List α) (h : (l.map f).Nodup)
    (x y : α) (hx : x ∈ l) (hy : y ∈ l) (hf : f x = f y) : x = y := by
  induction l with
  | nil => cases hx
  | cons a t ih =>
    rw [List.map_cons, List.nodup_cons] at h
    obtain ⟨ha, ht⟩ := h
    rcases List.mem_cons.mp hx with rfl | hx2
    · rcases List.mem_cons.mp hy with rfl | hy2
      · rfl
      · exact absurd (by rw [hf]; exact List.mem_map_of_mem f hy2) ha
    · rcases List.mem_cons.mp hy with rfl | hy2
      · exact absurd (by rw [← hf]; exact List.mem_map_of_mem f hx2) ha
      · exact ih ht hx2 hy2

theorem getTopN_users_nodup (n : Nat) (l : List ScoreEntry)
    (hnd : (l.map ScoreEntry.user_id).Nodup) :
    ((getTopN n l).map RankSlot.user_id).Nodup := by
  rw [getTopN, toSlots_map_user, topEntries, List.map_take]
  have hperm : ((sortRanked l).map ScoreEntry.user_id).Perm (l.map ScoreEntry.user_id) :=
    (List.perm_insertionSort rankLe l).map ScoreEntry.user_id
  exact List.Nodup.sublist (List.take_sublist n _) (hperm.nodup_iff.mpr hnd)

/-- C7: for a ledger with one entry per user, `getRank` agrees with
`getTopN()`: a slot for user `u` with rank `k` exists in `getTopN()` iff
`getRank` returns `ranked k`; `getRank` returns the `Unranked` sentinel iff
`u` has no slot; and the `rank` field of the slot at position `i` is `i + 1`,
so rank and position coincide. -/
theorem getRank_consistent (n : Nat) (l : List ScoreEntry) (u k : Nat)
    (hnd : (l.map ScoreEntry.user_id).Nodup) :
    ((∃ s ∈ getTopN n l, s.user_id = u ∧ s.rank = k) ↔ getRank n l u = .ranked k) ∧
    (getRank n l u = .unranked ↔ ∀ s ∈ getTopN n l, s.user_id ≠ u) ∧
    (∀ (i : Nat) (hi : i < (getTopN n l).length), ((getTopN n l).get ⟨i, hi⟩).rank = i + 1) := by
  refine ⟨?_, getRank_unranked_iff n l u, ?_⟩
  · constructor
    · rintro ⟨s, hs, hu, hk⟩
      have hfind : (getTopN n l).find? (fun t => t.user_id == u) = some s := by
        cases hf : (getTopN n l).find? (fun t => t.user_id == u) with
        | none =>
          exact absurd (by simp [hu]) (List.find?_eq_none.mp hf s hs)
        | some t =>
          have htu : t.user_id = u := by simpa using List.find?_some hf
          have hts : t = s :=
            map_nodup_inj_on RankSlot.user_id (getTopN n l) (getTopN_users_nodup n l hnd)
              t s (List.mem_of_find?_eq_some hf) hs (by rw [htu, hu])
          rw [hts]
      rw [getRank, hfind]
      show Rank.ranked s.rank = Rank.ranked k
      rw [hk]
    · intro h
      rw [getRank] at h
      cases hf : (getTopN n l).find? (fun t => t.user_id == u) with
      | none =>
        rw [hf] at h
        exact absurd h (by simp)
      | some s =>
        rw [hf] at h
        refine ⟨s, List.mem_of_find?_eq_some hf, by simpa using List.find?_some hf, ?_⟩
        exact Rank.ranked.inj h
  · intro i hi
    exact (toSlots_get_rank (topEntries n l) 1 i hi).trans (Nat.add_comm 1 i)

/-- Witness for C7: ledger with users 1 (score 10) and 2 (score 20); user 2 is
at rank 1, and all three consistency statements hold. -/
theorem getRank_consistent_witness :
    ((∃ s ∈ getTopN 2 [⟨1, 10, 1⟩, ⟨2, 20, 2⟩], s.user_id = 2 ∧ s.rank = 1) ↔
      getRank 2 [⟨1, 10, 1⟩, ⟨2, 20, 2⟩] 2 = .ranked 1) ∧
    (getRank 2 [⟨1, 10, 1⟩, ⟨2, 20, 2⟩] 2 = .unranked ↔
      ∀ s ∈ getTopN 2 [⟨1, 10, 1⟩, ⟨2, 20, 2⟩], s.user_id ≠ 2) ∧
    (∀ (i : Nat) (hi : i < (getTopN 2 [⟨1, 10, 1⟩, ⟨2, 20, 2⟩]).length),
      ((getTopN 2 [⟨1, 10, 1⟩, ⟨2, 20, 2⟩]).get ⟨i, hi⟩).rank = i + 1) :=
  getRank_consistent 2 [⟨1, 10, 1⟩, ⟨2, 20, 2⟩] 2 1 (by decide)

end Ranking
